import Mathlib

/-!
Shallow embedding of the hybrid retrieval ranking engine of the
Tax-Code-RAG repository (src/retrieval/search.py), together with the
input-validation behaviour of its two exposed entry points
(src/http_server.py and src/main.py).

Modelling conventions:
* Python floats are modelled as exact rationals (ℚ); the float literal
  1.2 becomes 6/5, 0.3 becomes 3/10, and so on.
* Python dicts carrying result rows become the structure SResult; the
  optional key normalized_score becomes an Option ℚ field.
* The insertion-ordered Python dict combined_scores becomes an
  association list (List (String × FusionEntry)) updated in place and
  extended at the end, exactly as dict insertion order behaves.
* Python sorted(...) is a stable sort; a stable sort is uniquely
  determined by the comparator and input order, so it is modelled by
  List.insertionSort (which is stable for reflexive comparators).
* numpy argsort is modelled as a stable ascending sort of the index
  range (numpy uses insertion sort on small arrays, and the source
  relies only on a deterministic ascending argsort); the source then
  reverses it with [::-1].
* The external collaborators (ChromaDB dense retriever, the rank_bm25
  BM25Okapi scorer) are opaque function parameters: a dense retriever
  maps (query, k) to scored hits, and the BM25 constructor maps the
  tokenized corpus to a scoring function from query tokens to one
  score per corpus document.
-/

namespace TaxRAG

/-- A document as returned by the dense retriever together with its
distance (similarity_search_with_score). -/
structure DenseHit where
  text : String
  sectionLabel : String
  page : Nat
  source : String
  distance : ℚ
deriving Repr, DecidableEq, Inhabited

/-- A corpus document as enumerated for the BM25 build
(initialize_bm25 reads page_content and the section/page metadata). -/
structure CorpusDoc where
  text : String
  sectionLabel : String
  page : Nat
deriving Repr, DecidableEq, Inhabited

/-- The metadata row stored per BM25 document (_bm25_metadata). -/
structure Bm25Meta where
  sectionLabel : String
  page : Nat
deriving Repr, DecidableEq, Inhabited

/-- One result row of the search pipeline: the Python result dict with
keys text, section, page, source, score, and the optional keys
normalized_score, semantic_component, bm25_component. -/
structure SResult where
  text : String
  sectionLabel : String
  page : Nat
  source : String
  score : ℚ
  normScore : Option ℚ := none
  semComponent : Option ℚ := none
  bmComponent : Option ℚ := none
deriving Repr, DecidableEq, Inhabited

/-- The built BM25 index: the global triple (_bm25_index, _bm25_docs,
_bm25_metadata); the opaque BM25Okapi scorer is the field scores,
mapping query tokens to one score per document. -/
structure Bm25Index where
  docs : List String
  metas : List Bm25Meta
  scores : List String → List ℚ

/-- The process-wide BM25 singleton state: none models the globals
still being None. -/
structure Bm25State where
  index : Option Bm25Index

/-- The ChromaDB collaborator: similarity_search_with_score, plus the
corpus enumeration that initialize_bm25 obtains from it via a
very-large-k similarity_search call. -/
structure Chroma where
  searchWithScore : String → Nat → List DenseHit
  allDocs : List CorpusDoc

/-- Lower-case the characters of a string (str.lower; ASCII letters
are the only characters the relevant alphabet contains). -/
def lowerChars (s : String) : List Char :=
  s.data.map Char.toLower

/-- Split a character list on whitespace runs, accumulating the
current word in reverse (the behaviour of str.split() with no
separator: no empty tokens). -/
def splitWsAux : List Char → List Char → List (List Char)
  | [], cur => if cur.isEmpty then [] else [cur.reverse]
  | c :: cs, cur =>
    if c.isWhitespace then
      if cur.isEmpty then splitWsAux cs [] else cur.reverse :: splitWsAux cs []
    else splitWsAux cs (c :: cur)

/-- Tokenization used for both corpus documents and queries:
doc.lower().split() — lower-case, split on whitespace runs. -/
def tokenize (s : String) : List String :=
  (splitWsAux (lowerChars s) []).map fun w => String.mk w

/-- initialize_bm25: a no-op when the index already exists, otherwise
builds the index from the corpus enumeration; bm25Okapi is the opaque
BM25Okapi constructor applied to the tokenized documents. -/
def initializeBm25 (bm25Okapi : List (List String) → List String → List ℚ)
    (db : Chroma) (st : Bm25State) : Bm25State :=
  if st.index.isSome then st
  else
    let docs := db.allDocs.map CorpusDoc.text
    let metas := db.allDocs.map (fun d => Bm25Meta.mk d.sectionLabel d.page)
    { index := some { docs := docs, metas := metas,
                      scores := bm25Okapi (docs.map tokenize) } }

/-- search_semantic: dense retrieval, converting distance to the
similarity score 1.0 / (1.0 + distance). -/
def searchSemantic (dense : String → Nat → List DenseHit) (q : String)
    (k : Nat) : List SResult :=
  (dense q k).map fun d =>
    { text := d.text, sectionLabel := d.sectionLabel, page := d.page,
      source := d.source, score := 1 / (1 + d.distance) }

/-- Score of document index i in the BM25 score vector (scores[idx]). -/
def scoreAt (scores : List ℚ) (i : Nat) : ℚ := scores.getD i 0

/-- np.argsort(scores): the index range stably sorted by ascending
score. -/
def argsortAsc (scores : List ℚ) : List Nat :=
  List.insertionSort (fun i j => scoreAt scores i ≤ scoreAt scores j)
    (List.range scores.length)

/-- search_bm25: with no index, return []; otherwise tokenize the
query, score every document, take the top k indices of the reversed
ascending argsort, and keep those with strictly positive score. -/
def searchBm25 (st : Bm25State) (q : String) (k : Nat) : List SResult :=
  match st.index with
  | none => []
  | some idx =>
    let scores := idx.scores (tokenize q)
    let top := ((argsortAsc scores).reverse).take k
    top.filterMap fun i =>
      if 0 < scoreAt scores i then
        some { text := idx.docs.getD i "",
               sectionLabel := (idx.metas.getD i (Bm25Meta.mk "Unknown" 0)).sectionLabel,
               page := (idx.metas.getD i (Bm25Meta.mk "Unknown" 0)).page,
               source := "Title 26 - Internal Revenue Code",
               score := scoreAt scores i }
      else none

/-- Minimum of the score column, as min(scores) over a nonempty list
(0 for the empty list, which the source never reaches). -/
def minScore (rs : List SResult) : ℚ :=
  match rs with
  | [] => 0
  | r :: _ => (rs.map SResult.score).foldl min r.score

/-- Maximum of the score column, as max(scores) over a nonempty list. -/
def maxScore (rs : List SResult) : ℚ :=
  match rs with
  | [] => 0
  | r :: _ => (rs.map SResult.score).foldl max r.score

/-- Set the normalized_score key of a result row. -/
def withNorm (r : SResult) (v : ℚ) : SResult :=
  { r with normScore := some v }

/-- normalize_scores: lists of fewer than two results pass through
unchanged; with degenerate spread (max == min) every normalized score
becomes 1.0; otherwise linear min-max scaling. -/
def normalizeScores (results : List SResult) : List SResult :=
  if results.length < 2 then results
  else
    if maxScore results = minScore results then
      results.map fun r => withNorm r 1
    else
      results.map fun r =>
        withNorm r ((r.score - minScore results) / (maxScore results - minScore results))

/-- The fusion key: the first 100 characters of the text
(result['text'][:100]). -/
def fkey (r : SResult) : String := String.mk (r.text.data.take 100)

/-- Component score used at fusion time:
result.get('normalized_score', result['score']). -/
def compScore (r : SResult) : ℚ := r.normScore.getD r.score

/-- One entry of the combined_scores dict. -/
structure FusionEntry where
  result : SResult
  semanticScore : ℚ
  bm25Score : ℚ
  count : Nat
deriving Repr, DecidableEq

/-- Update an insertion-ordered association list at a key, applying f
to the existing entry, or to the fresh entry e0 appended at the end
when the key is absent — exactly the dict pattern
"if key not in d: d[key] = fresh; mutate d[key]". -/
def updateAssoc (m : List (String × FusionEntry)) (k : String)
    (f : FusionEntry → FusionEntry) (e0 : FusionEntry) :
    List (String × FusionEntry) :=
  match m with
  | [] => [(k, f e0)]
  | (k', e) :: rest =>
    if k' = k then (k', f e) :: rest else (k', e) :: updateAssoc rest k f e0

/-- The fresh entry created when a key is first seen:
result/0/0/count 0. -/
def freshEntry (r : SResult) : FusionEntry :=
  { result := r, semanticScore := 0, bm25Score := 0, count := 0 }

/-- The semantic loop body: set the semantic component and increment
the hit count. -/
def addSemantic (m : List (String × FusionEntry)) (r : SResult) :
    List (String × FusionEntry) :=
  updateAssoc m (fkey r)
    (fun e => { e with semanticScore := compScore r, count := e.count + 1 })
    (freshEntry r)

/-- The BM25 loop body: set the bm25 component and increment the hit
count. -/
def addBm25 (m : List (String × FusionEntry)) (r : SResult) :
    List (String × FusionEntry) :=
  updateAssoc m (fkey r)
    (fun e => { e with bm25Score := compScore r, count := e.count + 1 })
    (freshEntry r)

/-- combined_scores after both accumulation loops. -/
def buildCombined (semanticResults bm25Results : List SResult) :
    List (String × FusionEntry) :=
  bm25Results.foldl addBm25 (semanticResults.foldl addSemantic [])

/-- The weighted blend alpha * semantic + (1 - alpha) * bm25. -/
def blendedScore (alpha : ℚ) (e : FusionEntry) : ℚ :=
  alpha * e.semanticScore + (1 - alpha) * e.bm25Score

/-- final_score: blend, apply the 1.2 consensus multiplier when the
hit count exceeds 1, then clamp with min(1.0, max(0.0, ·)). -/
def finalScore (alpha : ℚ) (e : FusionEntry) : ℚ :=
  let b := blendedScore alpha e
  let b2 := if 1 < e.count then b * (6 / 5) else b
  min 1 (max 0 b2)

/-- The stable descending sort of the fusion entries by final score
(sorted(..., key=final_score, reverse=True); Python's sort is stable,
and reverse=True keeps ties in dict insertion order). -/
def sortCombined (alpha : ℚ) (m : List (String × FusionEntry)) :
    List (String × FusionEntry) :=
  List.insertionSort
    (fun a b => finalScore alpha b.2 ≤ finalScore alpha a.2) m

/-- The fusion pipeline applied to the two raw candidate lists:
normalize each list, accumulate combined_scores, sort by final score
descending, truncate to k, and emit result copies carrying the final
score and both components. -/
def hybridFuse (semanticResults bm25Results : List SResult) (alpha : ℚ)
    (k : Nat) : List SResult :=
  let semN := normalizeScores semanticResults
  let bmN := normalizeScores bm25Results
  let combined := buildCombined semN bmN
  let sortedEntries := sortCombined alpha combined
  (sortedEntries.take k).map fun p =>
    { p.2.result with
        score := finalScore alpha p.2,
        semComponent := some p.2.semanticScore,
        bmComponent := some p.2.bm25Score }

/-- search: the hybrid facade. Builds the BM25 index on first use,
retrieves k*3 candidates from each method, and fuses. Returns the
possibly-updated singleton state together with the result list. -/
def search (bm25Okapi : List (List String) → List String → List ℚ)
    (db : Chroma) (st : Bm25State) (q : String) (k : Nat) (alpha : ℚ) :
    Bm25State × List SResult :=
  let st' := if st.index.isSome then st else initializeBm25 bm25Okapi db st
  let semanticResults := searchSemantic db.searchWithScore q (k * 3)
  let bm25Results := searchBm25 st' q (k * 3)
  (st', hybridFuse semanticResults bm25Results alpha k)

/-- Drop leading whitespace: the backtracking-free reading of a
greedy whitespace run in the pattern. -/
def dropWs (cs : List Char) : List Char :=
  cs.dropWhile Char.isWhitespace

/-- Whether the character list starts with a digit. -/
def startsDigit (cs : List Char) : Bool :=
  match cs with
  | [] => false
  | c :: _ => c.isDigit

/-- Whether one alternative of the regular expression
(§|section|sec\.?)\s*\d+ matches at the head of the (already
lower-cased) character list. -/
def sectionPatAt (cs : List Char) : Bool :=
  (match cs with
   | '§' :: rest => startsDigit (dropWs rest)
   | _ => false)
  || (cs.take 7 = "section".toList && startsDigit (dropWs (cs.drop 7)))
  || (cs.take 4 = "sec.".toList && startsDigit (dropWs (cs.drop 4)))
  || (cs.take 3 = "sec".toList && startsDigit (dropWs (cs.drop 3)))

/-- re.search(r'(§|section|sec\.?)\s*\d+', query.lower()) as a Bool:
some suffix of the lower-cased query matches one alternative. -/
def hasSectionPat (q : String) : Bool :=
  (lowerChars q).tails.any sectionPatAt

/-- The adaptive weight: alpha = 0.3 for section-citation queries,
otherwise 0.5. -/
def selectAlpha (q : String) : ℚ :=
  if hasSectionPat q then 3 / 10 else 1 / 2

/-- search_with_boost: run the facade with the adaptively selected
alpha. -/
def searchWithBoost (bm25Okapi : List (List String) → List String → List ℚ)
    (db : Chroma) (st : Bm25State) (q : String) (k : Nat) :
    Bm25State × List SResult :=
  search bm25Okapi db st q k (selectAlpha q)

/-- The HTTP request model of the POST /search endpoint
(http_server.py SearchRequest): pydantic enforces 1 ≤ top_k ≤ 20 and
0 ≤ alpha ≤ 1; the query string carries no constraint. -/
structure SearchRequest where
  query : String
  top_k : Int
  alpha : ℚ
deriving Repr, DecidableEq

/-- Whether pydantic validation accepts the request (true means the
handler proceeds to call search). -/
def validRequest (r : SearchRequest) : Bool :=
  (1 ≤ r.top_k && r.top_k ≤ 20) && (0 ≤ r.alpha && r.alpha ≤ 1)

/-- Outcome of the MCP call_tool handler before retrieval: either an
error message is returned, or the handler proceeds to search with the
given k. -/
inductive McpOutcome where
  | errorMsg (s : String)
  | searched (k : Int)
deriving Repr, DecidableEq

/-- main.py call_tool for search_tax_code: an empty query yields an
error message; otherwise top_k is clamped into [1, 20] with
min(max(1, top_k), 20) and retrieval proceeds. -/
def mcpCallTool (query : String) (top_k : Int) : McpOutcome :=
  if query = "" then McpOutcome.errorMsg "Error: Query cannot be empty"
  else McpOutcome.searched (min (max 1 top_k) 20)

/-! Concrete demonstration objects used by witnesses and
counterexamples. -/

/-- A BM25 index with two documents that tie with score 1 on every
query. -/
def tieIdx : Bm25Index :=
  { docs := ["tie doc a", "tie doc b"],
    metas := [Bm25Meta.mk "A" 1, Bm25Meta.mk "B" 2],
    scores := fun _ => [1, 1] }

/-- A built BM25 singleton state holding tieIdx. -/
def tieSt : Bm25State := Bm25State.mk (some tieIdx)

/-- A dense collaborator over the same two-document corpus. -/
def demoDb : Chroma :=
  { searchWithScore := fun _ _ =>
      [DenseHit.mk "tie doc a" "A" 1 "t26" 0, DenseHit.mk "tie doc b" "B" 2 "t26" 1],
    allDocs := [CorpusDoc.mk "tie doc a" "A" 1, CorpusDoc.mk "tie doc b" "B" 2] }

/-- An opaque BM25 constructor for the demonstrations. -/
def demoOkapi : List (List String) → List String → List ℚ :=
  fun _ _ => [1, 1]

/-- A result row carrying a raw score and no normalized score. -/
def demoRow (t : String) (s : ℚ) : SResult :=
  { text := t, sectionLabel := "S", page := 1, source := "t26", score := s }

/-! Helper lemmas about the stable sorts of the pipeline. -/

/-- The fusion sort is a permutation of the accumulated entries. -/
theorem sortCombined_perm (alpha : ℚ) (m : List (String × FusionEntry)) :
    (sortCombined alpha m).Perm m :=
  List.perm_insertionSort _ m

/-- The fusion sort yields entries in descending final-score order. -/
theorem sortCombined_pairwise (alpha : ℚ) (m : List (String × FusionEntry)) :
    (sortCombined alpha m).Pairwise
      (fun a b => finalScore alpha b.2 ≤ finalScore alpha a.2) := by
  haveI : IsTotal (String × FusionEntry)
      (fun a b => finalScore alpha b.2 ≤ finalScore alpha a.2) :=
    ⟨fun a b => le_total _ _⟩
  haveI : IsTrans (String × FusionEntry)
      (fun a b => finalScore alpha b.2 ≤ finalScore alpha a.2) :=
    ⟨fun a b c h1 h2 => le_trans h2 h1⟩
  exact List.sorted_insertionSort _ m

/-- c4: the Adaptive Weight Selector chooses alpha = 0.3 exactly on
queries matching the section-citation pattern, 0.5 otherwise; in
particular on the three cited section queries and the concept query;
and search_with_boost runs search with the selected alpha. -/
theorem claim_C4_adaptive_alpha :
    (∀ q : String, hasSectionPat q = true → selectAlpha q = 3 / 10)
    ∧ (∀ q : String, hasSectionPat q = false → selectAlpha q = 1 / 2)
    ∧ selectAlpha "§ 164" = 3 / 10
    ∧ selectAlpha "section 164" = 3 / 10
    ∧ selectAlpha "sec. 164" = 3 / 10
    ∧ selectAlpha "child tax credit" = 1 / 2
    ∧ ∀ bm25Okapi db st q k,
        searchWithBoost bm25Okapi db st q k
          = search bm25Okapi db st q k (selectAlpha q) := by
  refine ⟨?_, ?_, ?_, ?_, ?_, ?_, ?_⟩
  · intro q h; simp [selectAlpha, h]
  · intro q h; simp [selectAlpha, h]
  · simp [selectAlpha, show hasSectionPat "§ 164" = true from by decide]
  · simp [selectAlpha, show hasSectionPat "section 164" = true from by decide]
  · simp [selectAlpha, show hasSectionPat "sec. 164" = true from by decide]
  · simp [selectAlpha, show hasSectionPat "child tax credit" = false from by decide]
  · intro _ _ _ _ _; rfl

/-- Witness for c4 at the concrete query "§ 7701". -/
theorem claim_C4_witness :
    hasSectionPat "§ 7701" = true ∧ selectAlpha "§ 7701" = 3 / 10 :=
  ⟨by decide, claim_C4_adaptive_alpha.1 "§ 7701" (by decide)⟩

/-- c9: rebuilding an existing BM25 index is a no-op, the facade does
not change a built index state, and the facade builds exactly when no
index exists. -/
theorem claim_C9_build_once_noop :
    ∀ (bm25Okapi : List (List String) → List String → List ℚ)
      (db : Chroma) (st : Bm25State) (q : String) (k : Nat) (alpha : ℚ),
      (st.index.isSome = true → initializeBm25 bm25Okapi db st = st)
      ∧ (st.index.isSome = true →
          (search bm25Okapi db st q k alpha).1 = st)
      ∧ (st.index.isSome = false →
          (search bm25Okapi db st q k alpha).1
            = initializeBm25 bm25Okapi db st) := by
  intro f db st q k a
  refine ⟨fun h => ?_, fun h => ?_, fun h => ?_⟩
  · simp [initializeBm25, h]
  · simp [search, h]
  · simp [search, h]

/-- Witness for c9 at the concrete built state tieSt. -/
theorem claim_C9_witness :
    initializeBm25 demoOkapi demoDb tieSt = tieSt
    ∧ (search demoOkapi demoDb tieSt "salt deduction" 5 1).1 = tieSt :=
  ⟨(claim_C9_build_once_noop demoOkapi demoDb tieSt "salt deduction" 5 1).1 rfl,
   (claim_C9_build_once_noop demoOkapi demoDb tieSt "salt deduction" 5 1).2.1 rfl⟩

/-- c6: the Score Normalizer passes lists of 0 or 1 results through
unchanged (leaving normalized_score unset), and at fusion time a
result without a normalized score contributes its raw score — both in
the component accessor and in the accumulated entry of either loop. -/
theorem claim_C6_short_list_passthrough :
    ∀ (r : SResult) (rs : List SResult),
      (rs.length < 2 → normalizeScores rs = rs)
      ∧ normalizeScores [r] = [r]
      ∧ (r.normScore = none → compScore r = r.score)
      ∧ (r.normScore = none →
          addSemantic [] r = [(fkey r, FusionEntry.mk r r.score 0 1)]
          ∧ addBm25 [] r = [(fkey r, FusionEntry.mk r 0 r.score 1)]) := by
  intro r rs
  refine ⟨fun h => ?_, ?_, fun h => ?_, fun h => ⟨?_, ?_⟩⟩
  · simp [normalizeScores, h]
  · simp [normalizeScores]
  · simp [compScore, h]
  · simp [addSemantic, updateAssoc, freshEntry, compScore, h]
  · simp [addBm25, updateAssoc, freshEntry, compScore, h]

/-- Witness for c6 at a concrete single raw result row. -/
theorem claim_C6_witness :
    normalizeScores [demoRow "only hit" 7] = [demoRow "only hit" 7]
    ∧ compScore (demoRow "only hit" 7) = (demoRow "only hit" 7).score :=
  ⟨(claim_C6_short_list_passthrough (demoRow "only hit" 7) []).2.1,
   (claim_C6_short_list_passthrough (demoRow "only hit" 7) []).2.2.1 rfl⟩

/-- c8 counterexample: contrary to the claim, the HTTP request model
accepts an empty query string, and the MCP handler does not reject
top_k = 21 — it clamps it to 20 and proceeds to retrieval. -/
theorem claim_C8_counterexample :
    validRequest (SearchRequest.mk "" 5 1) = true
    ∧ mcpCallTool "child tax credit" 21 = McpOutcome.searched 20
    ∧ mcpCallTool "child tax credit" 21
        ≠ McpOutcome.errorMsg "Error: Query cannot be empty" := by
  refine ⟨by decide, by decide, by decide⟩

/-- c8 amended: the HTTP model rejects top_k outside [1,20] and alpha
outside [0,1] before retrieval but accepts an empty query; the MCP
handler rejects an empty query before retrieval but clamps top_k into
[1,20] instead of rejecting it. -/
theorem claim_C8_amended :
    ∀ (r : SearchRequest) (q : String) (t : Int),
      (r.top_k < 1 ∨ 20 < r.top_k → validRequest r = false)
      ∧ (r.alpha < 0 ∨ 1 < r.alpha → validRequest r = false)
      ∧ (validRequest r = true →
          1 ≤ r.top_k ∧ r.top_k ≤ 20 ∧ 0 ≤ r.alpha ∧ r.alpha ≤ 1)
      ∧ mcpCallTool "" t = McpOutcome.errorMsg "Error: Query cannot be empty"
      ∧ (q ≠ "" →
          mcpCallTool q t = McpOutcome.searched (min (max 1 t) 20)
          ∧ 1 ≤ min (max 1 t) 20 ∧ min (max 1 t) 20 ≤ 20) := by
  intro r q t
  refine ⟨fun h => ?_, fun h => ?_, fun h => ?_, ?_, fun h => ?_⟩
  · simp only [validRequest]
    rcases h with h | h
    · refine Bool.and_eq_false_iff.mpr (Or.inl ?_)
      refine Bool.and_eq_false_iff.mpr (Or.inl ?_)
      exact decide_eq_false (not_le.mpr h)
    · refine Bool.and_eq_false_iff.mpr (Or.inl ?_)
      refine Bool.and_eq_false_iff.mpr (Or.inr ?_)
      exact decide_eq_false (not_le.mpr h)
  · simp only [validRequest]
    rcases h with h | h
    · refine Bool.and_eq_false_iff.mpr (Or.inr ?_)
      refine Bool.and_eq_false_iff.mpr (Or.inl ?_)
      exact decide_eq_false (not_le.mpr h)
    · refine Bool.and_eq_false_iff.mpr (Or.inr ?_)
      refine Bool.and_eq_false_iff.mpr (Or.inr ?_)
      exact decide_eq_false (not_le.mpr h)
  · simp only [validRequest, Bool.and_eq_true, decide_eq_true_eq] at h
    exact ⟨h.1.1, h.1.2, h.2.1, h.2.2⟩
  · simp [mcpCallTool]
  · refine ⟨by simp [mcpCallTool, h], by omega, by omega⟩

/-- Witness for c8 amended at top_k = 21, alpha = 2, and a non-empty
MCP query. -/
theorem claim_C8_amended_witness :
    validRequest (SearchRequest.mk "salt" 21 1) = false
    ∧ validRequest (SearchRequest.mk "salt" 5 2) = false
    ∧ mcpCallTool "salt" 21 = McpOutcome.searched (min (max 1 21) 20) :=
  ⟨(claim_C8_amended (SearchRequest.mk "salt" 21 1) "salt" 21).1 (Or.inr (by decide)),
   (claim_C8_amended (SearchRequest.mk "salt" 5 2) "salt" 21).2.1 (Or.inr (by decide)),
   ((claim_C8_amended (SearchRequest.mk "salt" 5 2) "salt" 21).2.2.2.2 (by decide)).1⟩

/-- c2: the 1.2 consensus multiplier is applied exactly when the hit
count exceeds 1, with blended score 1.2 * (alpha*s + (1-alpha)*b) and
final score min(1, that value) for nonnegative components; and an item
returned once by each method accumulates its two component scores with
hit count 2. -/
theorem claim_C2_consensus_multiplier :
    ∀ (alpha : ℚ) (e : FusionEntry),
      0 ≤ alpha → alpha ≤ 1 → 0 ≤ e.semanticScore → 0 ≤ e.bm25Score →
      (1 < e.count →
        finalScore alpha e
          = min 1 ((6 / 5) * (alpha * e.semanticScore + (1 - alpha) * e.bm25Score)))
      ∧ (¬ 1 < e.count →
        finalScore alpha e
          = min 1 (alpha * e.semanticScore + (1 - alpha) * e.bm25Score))
      ∧ (∀ rs rb : SResult, fkey rs = fkey rb →
          buildCombined [rs] [rb]
            = [(fkey rs, FusionEntry.mk rs (compScore rs) (compScore rb) 2)]) := by
  intro alpha e ha1 ha2 hs hb
  have hblend : 0 ≤ alpha * e.semanticScore + (1 - alpha) * e.bm25Score :=
    add_nonneg (mul_nonneg ha1 hs) (mul_nonneg (by linarith) hb)
  refine ⟨fun hc => ?_, fun hc => ?_, fun rs rb hk => ?_⟩
  · simp only [finalScore, blendedScore, if_pos hc]
    rw [max_eq_right (mul_nonneg hblend (by norm_num)), mul_comm]
  · simp only [finalScore, blendedScore, if_neg hc]
    rw [max_eq_right hblend]
  · simp [buildCombined, addSemantic, addBm25, updateAssoc, freshEntry, hk]

/-- Witness for c2 at alpha = 1 and a double-hit entry with unit
components. -/
theorem claim_C2_witness :
    finalScore 1 (FusionEntry.mk (demoRow "both hit" 9) 1 1 2)
      = min 1 ((6 / 5) * (1 * (FusionEntry.mk (demoRow "both hit" 9) 1 1 2).semanticScore
          + (1 - 1) * (FusionEntry.mk (demoRow "both hit" 9) 1 1 2).bm25Score)) :=
  (claim_C2_consensus_multiplier 1 (FusionEntry.mk (demoRow "both hit" 9) 1 1 2)
    (by decide) (by decide) (by decide) (by decide)).1 (by decide)

/-- c5: for lists of at least two results, non-degenerate spread gives
linear min-max scaling with the best result mapping to 1 and the worst
to 0, and degenerate spread (max = min) sets every normalized score to
exactly 1. -/
theorem claim_C5_minmax_normalization :
    ∀ rs : List SResult, 2 ≤ rs.length →
      (maxScore rs ≠ minScore rs →
        normalizeScores rs
            = rs.map (fun r =>
                withNorm r ((r.score - minScore rs) / (maxScore rs - minScore rs)))
        ∧ (∀ r ∈ normalizeScores rs, r.score = maxScore rs → r.normScore = some 1)
        ∧ (∀ r ∈ normalizeScores rs, r.score = minScore rs → r.normScore = some 0))
      ∧ (maxScore rs = minScore rs →
        normalizeScores rs = rs.map (fun r => withNorm r 1)) := by
  intro rs hlen
  have hnot : ¬ rs.length < 2 := by omega
  constructor
  · intro hne
    refine ⟨by simp [normalizeScores, hnot, hne], ?_, ?_⟩
    · intro r hr hmax
      simp only [normalizeScores, if_neg hnot, if_neg hne, List.mem_map] at hr
      obtain ⟨r0, _, rfl⟩ := hr
      simp only [withNorm] at hmax ⊢
      rw [hmax, div_self (sub_ne_zero.mpr hne)]
    · intro r hr hmin
      simp only [normalizeScores, if_neg hnot, if_neg hne, List.mem_map] at hr
      obtain ⟨r0, _, rfl⟩ := hr
      simp only [withNorm] at hmin ⊢
      rw [hmin, sub_self, zero_div]
  · intro heq
    simp [normalizeScores, hnot, heq]

/-- Witness for c5 at a concrete two-element list with scores 2
and 6. -/
theorem claim_C5_witness :
    normalizeScores [demoRow "worst" 2, demoRow "best" 6]
      = [demoRow "worst" 2, demoRow "best" 6].map (fun r =>
          withNorm r ((r.score - minScore [demoRow "worst" 2, demoRow "best" 6])
            / (maxScore [demoRow "worst" 2, demoRow "best" 6]
                - minScore [demoRow "worst" 2, demoRow "best" 6]))) :=
  ((claim_C5_minmax_normalization [demoRow "worst" 2, demoRow "best" 6]
      (by decide)).1 (by decide)).1

/-- c1: every score field of every result returned by the hybrid
facade lies in [0, 1], for all inputs and all native component score
ranges. -/
theorem claim_C1_scores_in_unit_range :
    ∀ (bm25Okapi : List (List String) → List String → List ℚ)
      (db : Chroma) (st : Bm25State) (q : String) (k : Nat) (alpha : ℚ),
      ((search bm25Okapi db st q k alpha).2).Forall
        (fun r => 0 ≤ r.score ∧ r.score ≤ 1) := by
  intro f db st q k a
  rw [List.forall_iff_forall_mem]
  intro r hr
  have hr2 : r ∈ hybridFuse (searchSemantic db.searchWithScore q (k * 3))
      (searchBm25 (if st.index.isSome then st else initializeBm25 f db st) q (k * 3))
      a k := hr
  simp only [hybridFuse, List.mem_map] at hr2
  obtain ⟨p, _, rfl⟩ := hr2
  have hfs : 0 ≤ finalScore a p.2 ∧ finalScore a p.2 ≤ 1 := by
    simp only [finalScore]
    exact ⟨le_min (by norm_num) (le_max_left 0 _), min_le_left _ _⟩
  exact hfs

/-- c3: the facade requests k*3 candidates from each retrieval method,
fuses them, and returns at most k results sorted by score descending
(the embedding is a pure function of the index state, so repeated
calls on the same state agree). -/
theorem claim_C3_facade_topk_sorted :
    ∀ (bm25Okapi : List (List String) → List String → List ℚ)
      (db : Chroma) (st : Bm25State) (q : String) (k : Nat) (alpha : ℚ),
      (search bm25Okapi db st q k alpha).2
          = hybridFuse (searchSemantic db.searchWithScore q (k * 3))
              (searchBm25 (if st.index.isSome then st else initializeBm25 bm25Okapi db st)
                q (k * 3))
              alpha k
      ∧ ((search bm25Okapi db st q k alpha).2).length ≤ k
      ∧ ((search bm25Okapi db st q k alpha).2).Pairwise
          (fun a b => b.score ≤ a.score) := by
  intro f db st q k a
  refine ⟨rfl, ?_, ?_⟩
  · simp only [search, hybridFuse, List.length_map, List.length_take]
    exact min_le_left _ _
  · have hp := sortCombined_pairwise a
      (buildCombined
        (normalizeScores (searchSemantic db.searchWithScore q (k * 3)))
        (normalizeScores
          (searchBm25 (if st.index.isSome then st else initializeBm25 f db st) q (k * 3))))
    have hp2 := List.Pairwise.sublist (List.take_sublist k _) hp
    exact List.pairwise_map.mpr (hp2.imp (fun h => h))

/-! Stability of the insertion sort modelling argsort, needed to
settle the BM25 tie-breaking order. -/

/-- Inserting x before an element y it compares ≤ to keeps x ahead of
y. -/
theorem orderedInsert_pair {α : Type} (r : α → α → Prop) [DecidableRel r]
    {x y : α} (hxy : r x y) :
    ∀ l : List α, y ∈ l → [x, y].Sublist (List.orderedInsert r x l) := by
  intro l
  induction l with
  | nil => intro hy; simp at hy
  | cons b t ih =>
    intro hy
    by_cases hb : r x b
    · rw [List.orderedInsert, if_pos hb]
      exact (List.singleton_sublist.mpr hy).cons₂ x
    · rw [List.orderedInsert, if_neg hb]
      have hyb : y ≠ b := fun h => hb (h ▸ hxy)
      have hyt : y ∈ t := by
        rcases List.mem_cons.mp hy with h | h
        · exact absurd h hyb
        · exact h
      exact (ih hyt).cons b

/-- Insertion sort keeps an input-ordered pair x before y whenever
r x y holds — the stability property Python's and numpy's stable sorts
provide. -/
theorem insertionSort_stable_pair {α : Type} (r : α → α → Prop) [DecidableRel r]
    {x y : α} (hxy : r x y) :
    ∀ l : List α, [x, y].Sublist l → [x, y].Sublist (List.insertionSort r l) := by
  intro l
  induction l with
  | nil => intro h; simp at h
  | cons a t ih =>
    intro h
    rw [List.insertionSort]
    cases h with
    | cons _ h' =>
      exact (ih h').trans (List.sublist_orderedInsert _ _)
    | cons₂ _ h' =>
      have hy : y ∈ List.insertionSort r t :=
        (List.perm_insertionSort r t).mem_iff.mpr (List.singleton_sublist.mp h')
      exact orderedInsert_pair r hxy _ hy

/-- Any ordered pair of indices below n is a sublist of range n. -/
theorem pair_sublist_range {i j n : Nat} (hij : i < j) (hj : j < n) :
    [i, j].Sublist (List.range n) := by
  induction n with
  | zero => omega
  | succ m ih =>
    rw [List.range_succ]
    by_cases h : j < m
    · exact (ih h).trans (List.sublist_append_left _ _)
    · have hj' : j = m := by omega
      rw [hj']
      have hi : [i].Sublist (List.range m) :=
        List.singleton_sublist.mpr (List.mem_range.mpr (by omega))
      exact hi.append (List.Sublist.refl [m])

/-- In the reversed ascending argsort, two tied indices appear in
descending index order: the later corpus document comes first. -/
theorem argsort_tie_order (scores : List ℚ) {i j : Nat} (hij : i < j)
    (hj : j < scores.length) (heq : scoreAt scores i = scoreAt scores j) :
    [j, i].Sublist ((argsortAsc scores).reverse) := by
  have h1 : [i, j].Sublist (argsortAsc scores) := by
    rw [argsortAsc]
    exact insertionSort_stable_pair (fun a b => scoreAt scores a ≤ scoreAt scores b)
      (x := i) (y := j) (le_of_eq heq) _ (pair_sublist_range hij hj)
  simpa using h1.reverse

/-- c7 counterexample: two corpus documents tie with the same strictly
positive BM25 score, and the query returns the second document of the
corpus snapshot first — the ties are not broken stably by index order
of the snapshot. -/
theorem claim_C7_counterexample :
    tieIdx.docs = ["tie doc a", "tie doc b"]
    ∧ tieIdx.scores (tokenize "q") = [1, 1]
    ∧ (searchBm25 tieSt "q" 2).map SResult.text = ["tie doc b", "tie doc a"]
    ∧ (searchBm25 tieSt "q" 2).map SResult.text ≠ ["tie doc a", "tie doc b"] := by
  refine ⟨rfl, rfl, by decide, by decide⟩

/-- c7 amended: the lexical query tokenizes by lower-casing and
whitespace-splitting, returns only strictly positive scores sorted
descending and truncated to at most k, and breaks ties by reverse
(descending) index order of the corpus snapshot, because the ascending
argsort is reversed. -/
theorem claim_C7_amended :
    ∀ (st : Bm25State) (idx : Bm25Index) (q : String) (k : Nat),
      st.index = some idx →
      (searchBm25 st q k).length ≤ k
      ∧ (searchBm25 st q k).Forall (fun r => 0 < r.score)
      ∧ (searchBm25 st q k).Pairwise (fun a b => b.score ≤ a.score)
      ∧ (∀ i j : Nat, i < j → j < (idx.scores (tokenize q)).length →
          scoreAt (idx.scores (tokenize q)) i = scoreAt (idx.scores (tokenize q)) j →
          [j, i].Sublist ((argsortAsc (idx.scores (tokenize q))).reverse)) := by
  intro st idx q k hst
  obtain ⟨ix⟩ := st
  cases hst
  refine ⟨?_, ?_, ?_, ?_⟩
  · simp only [searchBm25]
    refine le_trans (List.length_filterMap_le _ _) ?_
    rw [List.length_take]
    exact min_le_left _ _
  · rw [List.forall_iff_forall_mem]
    intro r hr
    simp only [searchBm25, List.mem_filterMap] at hr
    obtain ⟨i, _, hf⟩ := hr
    by_cases hpos : 0 < scoreAt (idx.scores (tokenize q)) i
    · rw [if_pos hpos] at hf
      cases hf
      exact hpos
    · rw [if_neg hpos] at hf
      cases hf
  · have hsorted : (argsortAsc (idx.scores (tokenize q))).Pairwise
        (fun i j => scoreAt (idx.scores (tokenize q)) i ≤ scoreAt (idx.scores (tokenize q)) j) := by
      haveI : IsTotal Nat
          (fun i j => scoreAt (idx.scores (tokenize q)) i ≤ scoreAt (idx.scores (tokenize q)) j) :=
        ⟨fun a b => le_total _ _⟩
      haveI : IsTrans Nat
          (fun i j => scoreAt (idx.scores (tokenize q)) i ≤ scoreAt (idx.scores (tokenize q)) j) :=
        ⟨fun a b c h1 h2 => le_trans h1 h2⟩
      exact List.sorted_insertionSort _ _
    have hrev : ((argsortAsc (idx.scores (tokenize q))).reverse).Pairwise
        (fun i j => scoreAt (idx.scores (tokenize q)) j ≤ scoreAt (idx.scores (tokenize q)) i) :=
      List.pairwise_reverse.mpr hsorted
    have htake := List.Pairwise.sublist (List.take_sublist k _) hrev
    simp only [searchBm25]
    rw [List.pairwise_filterMap]
    refine htake.imp_of_mem ?_
    intro a b _ _ hab x hx y hy
    by_cases ha : 0 < scoreAt (idx.scores (tokenize q)) a
    · by_cases hb : 0 < scoreAt (idx.scores (tokenize q)) b
      · rw [if_pos ha] at hx
        rw [if_pos hb] at hy
        cases hx
        cases hy
        exact hab
      · rw [if_neg hb] at hy
        cases hy
    · rw [if_neg ha] at hx
      cases hx
  · intro i j hij hj heq
    exact argsort_tie_order _ hij hj heq

/-- Witness for c7 amended at the concrete tied two-document index. -/
theorem claim_C7_witness :
    (searchBm25 tieSt "q" 2).length ≤ 2
    ∧ (searchBm25 tieSt "q" 2).Forall (fun r => 0 < r.score)
    ∧ (searchBm25 tieSt "q" 2).Pairwise (fun a b => b.score ≤ a.score)
    ∧ (∀ i j : Nat, i < j → j < (tieIdx.scores (tokenize "q")).length →
        scoreAt (tieIdx.scores (tokenize "q")) i = scoreAt (tieIdx.scores (tokenize "q")) j →
        [j, i].Sublist ((argsortAsc (tieIdx.scores (tokenize "q"))).reverse)) :=
  claim_C7_amended tieSt tieIdx "q" 2 rfl

/-! Key uniqueness of the fusion map, needed to settle the
deduplication invariant of the facade output. -/

/-- A key of an updated map is either an old key or the inserted
key. -/
theorem mem_keys_updateAssoc {m : List (String × FusionEntry)} {k x : String}
    {f : FusionEntry → FusionEntry} {e0 : FusionEntry}
    (h : x ∈ (updateAssoc m k f e0).map Prod.fst) :
    x ∈ m.map Prod.fst ∨ x = k := by
  induction m with
  | nil =>
    simp only [updateAssoc, List.map_cons, List.map_nil, List.mem_singleton] at h
    exact Or.inr h
  | cons p rest ih =>
    obtain ⟨k', e⟩ := p
    by_cases hk : k' = k
    · rw [updateAssoc, if_pos hk] at h
      simp only [List.map_cons, List.mem_cons] at h ⊢
      tauto
    · rw [updateAssoc, if_neg hk] at h
      simp only [List.map_cons, List.mem_cons] at h ⊢
      rcases h with h | h
      · tauto
      · rcases ih h with h2 | h2 <;> tauto

/-- Updating the map keeps its keys distinct. -/
theorem nodup_keys_updateAssoc {m : List (String × FusionEntry)} {k : String}
    {f : FusionEntry → FusionEntry} {e0 : FusionEntry}
    (h : (m.map Prod.fst).Nodup) :
    ((updateAssoc m k f e0).map Prod.fst).Nodup := by
  induction m with
  | nil => simp [updateAssoc]
  | cons p rest ih =>
    obtain ⟨k', e⟩ := p
    simp only [List.map_cons, List.nodup_cons] at h
    obtain ⟨hnot, hrest⟩ := h
    by_cases hk : k' = k
    · rw [updateAssoc, if_pos hk]
      simp only [List.map_cons, List.nodup_cons]
      exact ⟨hnot, hrest⟩
    · rw [updateAssoc, if_neg hk]
      simp only [List.map_cons, List.nodup_cons]
      refine ⟨?_, ih hrest⟩
      intro hx
      rcases mem_keys_updateAssoc hx with h1 | h2
      · exact hnot h1
      · exact hk h2

/-- Updating the map preserves the invariant that every entry is
stored under the fusion key of its carried result. -/
theorem fkey_updateAssoc {m : List (String × FusionEntry)} {k : String}
    {f : FusionEntry → FusionEntry} {e0 : FusionEntry}
    (hf : ∀ e, (f e).result = e.result) (he0 : fkey e0.result = k)
    (h : ∀ p ∈ m, fkey p.2.result = p.1) :
    ∀ p ∈ updateAssoc m k f e0, fkey p.2.result = p.1 := by
  induction m with
  | nil =>
    intro p hp
    simp only [updateAssoc, List.mem_singleton] at hp
    subst hp
    rw [hf, he0]
  | cons q rest ih =>
    obtain ⟨k', e⟩ := q
    intro p hp
    by_cases hk : k' = k
    · rw [updateAssoc, if_pos hk] at hp
      rcases List.mem_cons.mp hp with h1 | h2
      · subst h1
        rw [hf]
        exact h (k', e) (List.mem_cons_self _ _)
      · exact h p (List.mem_cons_of_mem _ h2)
    · rw [updateAssoc, if_neg hk] at hp
      rcases List.mem_cons.mp hp with h1 | h2
      · subst h1
        exact h (k', e) (List.mem_cons_self _ _)
      · exact ih (fun p hp => h p (List.mem_cons_of_mem _ hp)) p h2

/-- The combined well-formedness of a fusion map: keys are distinct
and each entry sits under the key of its result. -/
def GoodMap (m : List (String × FusionEntry)) : Prop :=
  (m.map Prod.fst).Nodup ∧ ∀ p ∈ m, fkey p.2.result = p.1

/-- The semantic accumulation step preserves map well-formedness. -/
theorem goodMap_addSemantic {m : List (String × FusionEntry)}
    (h : GoodMap m) (r : SResult) : GoodMap (addSemantic m r) :=
  ⟨nodup_keys_updateAssoc h.1,
   fkey_updateAssoc (fun _ => rfl) rfl h.2⟩

/-- The BM25 accumulation step preserves map well-formedness. -/
theorem goodMap_addBm25 {m : List (String × FusionEntry)}
    (h : GoodMap m) (r : SResult) : GoodMap (addBm25 m r) :=
  ⟨nodup_keys_updateAssoc h.1,
   fkey_updateAssoc (fun _ => rfl) rfl h.2⟩

/-- Folding the semantic loop preserves map well-formedness. -/
theorem goodMap_foldl_addSemantic (l : List SResult) :
    ∀ {m : List (String × FusionEntry)}, GoodMap m →
      GoodMap (l.foldl addSemantic m) := by
  induction l with
  | nil => intro m h; exact h
  | cons a t ih => intro m h; exact ih (goodMap_addSemantic h a)

/-- Folding the BM25 loop preserves map well-formedness. -/
theorem goodMap_foldl_addBm25 (l : List SResult) :
    ∀ {m : List (String × FusionEntry)}, GoodMap m →
      GoodMap (l.foldl addBm25 m) := by
  induction l with
  | nil => intro m h; exact h
  | cons a t ih => intro m h; exact ih (goodMap_addBm25 h a)

/-- The accumulated combined_scores map is well-formed. -/
theorem goodMap_buildCombined (semanticResults bm25Results : List SResult) :
    GoodMap (buildCombined semanticResults bm25Results) :=
  goodMap_foldl_addBm25 bm25Results
    (goodMap_foldl_addSemantic semanticResults ⟨List.nodup_nil, by simp⟩)

/-- No two results of a fused output agree on their fusion key. -/
theorem hybridFuse_pairwise_keys (semanticResults bm25Results : List SResult)
    (alpha : ℚ) (k : Nat) :
    (hybridFuse semanticResults bm25Results alpha k).Pairwise
      (fun a b => fkey a ≠ fkey b) := by
  obtain ⟨hnd, hinv⟩ :=
    goodMap_buildCombined (normalizeScores semanticResults)
      (normalizeScores bm25Results)
  have hperm := sortCombined_perm alpha
    (buildCombined (normalizeScores semanticResults) (normalizeScores bm25Results))
  have hnd2 : ((sortCombined alpha
      (buildCombined (normalizeScores semanticResults)
        (normalizeScores bm25Results))).map Prod.fst).Nodup :=
    ((hperm.map Prod.fst).nodup_iff).mpr hnd
  have hpw : (sortCombined alpha
      (buildCombined (normalizeScores semanticResults)
        (normalizeScores bm25Results))).Pairwise (fun p q => p.1 ≠ q.1) :=
    List.pairwise_map.mp hnd2
  have hpw2 := List.Pairwise.sublist (List.take_sublist k _) hpw
  have hinv2 : ∀ p ∈ (sortCombined alpha
      (buildCombined (normalizeScores semanticResults)
        (normalizeScores bm25Results))).take k, fkey p.2.result = p.1 :=
    fun p hp => hinv p (hperm.mem_iff.mp (List.take_subset k _ hp))
  rw [hybridFuse, List.pairwise_map]
  refine hpw2.imp_of_mem ?_
  intro a b ha hb hne
  have hka : fkey a.2.result = a.1 := hinv2 a ha
  have hkb : fkey b.2.result = b.1 := hinv2 b hb
  intro hcontra
  apply hne
  rw [← hka, ← hkb]
  exact hcontra

/-- c10: the facade output never contains two results whose text
contents agree on their first 100 characters — each content surrogate
key contributes at most one result. -/
theorem claim_C10_distinct_keys :
    ∀ (bm25Okapi : List (List String) → List String → List ℚ)
      (db : Chroma) (st : Bm25State) (q : String) (k : Nat) (alpha : ℚ),
      ((search bm25Okapi db st q k alpha).2).Pairwise
        (fun a b => fkey a ≠ fkey b) := by
  intro f db st q k a
  exact hybridFuse_pairwise_keys _ _ _ _

end TaxRAG
